import Mathlib

/-!
A verification development for the pulseWatch log-analytics engine.

The Go sources are embedded shallowly:

* Wall-clock instants (`time.Time`) and durations (`time.Duration`) are
  modelled as `Int` nanosecond counts; `time.Now()` becomes an explicit
  `now : Int` parameter threaded to the functions that call it.
* Go `float64` computations on metrics are modelled exactly over `ℚ`.
  To keep every definition kernel-computable we implement the rational
  operations through `Rat.divInt` (`qadd`, `qmul`, `qdiv` below) and prove
  once that they agree with Mathlib's field operations.
* Go maps (`map[string]int`, `map[string]interface{}`) are modelled as
  count functions `String → Nat` respectively association lists with
  last-wins update (`mapUpsert`), reflecting that Go maps are unordered
  key-value stores.
* `encoding/json.Unmarshal` into `map[string]interface{}` is modelled by a
  fuel-based JSON reader producing `Jval` values (numbers kept exactly as
  rationals; surrogate-pair combining of `\uXXXX` escapes is not performed,
  unpaired surrogates map to U+FFFD as in Go).
* The SQLite table of `storage.go` is a list of rows in rowid (insertion)
  order; `ORDER BY timestamp` over the timestamp index is a stable sort,
  modelled by `List.insertionSort`.
* `sort.Float64s` inside `stats.Percentile` is likewise modelled by
  `List.insertionSort` (any correct sort yields the same sorted copy).
-/

/-! ## Kernel-computable rational arithmetic -/

/-- Addition on `ℚ` via `Rat.divInt`; agrees with `+` (see `qadd_eq`). -/
def qadd (a b : ℚ) : ℚ := Rat.divInt (a.num * b.den + b.num * a.den) (a.den * b.den)

/-- Multiplication on `ℚ` via `Rat.divInt`; agrees with `*` (see `qmul_eq`). -/
def qmul (a b : ℚ) : ℚ := Rat.divInt (a.num * b.num) (a.den * b.den)

/-- Division on `ℚ` via `Rat.divInt`; agrees with `/` (see `qdiv_eq`). -/
def qdiv (a b : ℚ) : ℚ := Rat.divInt (a.num * b.den) (a.den * b.num)

/-- Go's conversion of a `float64` to an integer type truncates toward zero.
`truncQ` is that truncation on our exact-rational model of `float64`. -/
def truncQ (q : ℚ) : Int := q.num.tdiv q.den

/-! ## Go duration constants (nanoseconds) -/

def Millisecond : Int := 1000000

def Second : Int := 1000000000

def Minute : Int := 60 * Second

def Hour : Int := 60 * Minute

/-- Go `Duration.Milliseconds()`: `int64(d) / 1e6`, truncating toward zero. -/
def durMilliseconds (d : Int) : Int := d.tdiv 1000000

/-- Go `Duration.Seconds()` as an exact rational. -/
def durSeconds (d : Int) : ℚ := qdiv (d : ℚ) (1000000000 : ℚ)

/-! ## JSON values and a model of `encoding/json.Unmarshal` -/

/-- A decoded JSON value, as produced by `json.Unmarshal` into
`interface{}` (numbers are Go `float64`, modelled exactly as `ℚ`). -/
inductive Jval where
  | null : Jval
  | jbool : Bool → Jval
  | num : ℚ → Jval
  | str : String → Jval
  | arr : List Jval → Jval
  | obj : List (String × Jval) → Jval

/-- Insert-or-replace for the association-list model of a Go map
(duplicate JSON keys: the last value wins, as in `encoding/json`). -/
def mapUpsert : List (String × Jval) → String → Jval → List (String × Jval)
  | [], k, v => [(k, v)]
  | (k', v') :: rest, k, v =>
    if k' = k then (k, v) :: rest else (k', v') :: mapUpsert rest k v

/-- Go map lookup `raw[k]` on the association-list model. -/
def lookupJ (kvs : List (String × Jval)) (k : String) : Option Jval :=
  (kvs.find? (fun p => p.1 == k)).map Prod.snd

def lbraceChar : Char := Char.ofNat 123

def rbraceChar : Char := Char.ofNat 125

def skipWs : List Char → List Char
  | [] => []
  | c :: rest =>
    if c = ' ' ∨ c = '\t' ∨ c = '\n' ∨ c = '\r' then skipWs rest else c :: rest

def hexVal (c : Char) : Option Nat :=
  if '0' ≤ c ∧ c ≤ '9' then some (c.toNat - 48)
  else if 'a' ≤ c ∧ c ≤ 'f' then some (c.toNat - 87)
  else if 'A' ≤ c ∧ c ≤ 'F' then some (c.toNat - 55)
  else none

/-- Read the body of a JSON string after the opening quote, returning the
decoded characters and the remaining input. -/
def jstr : List Char → Option (List Char × List Char)
  | [] => none
  | '"' :: rest => some ([], rest)
  | '\\' :: esc =>
    match esc with
    | '"' :: r => (fun p => ('"' :: p.1, p.2)) <$> jstr r
    | '\\' :: r => (fun p => ('\\' :: p.1, p.2)) <$> jstr r
    | '/' :: r => (fun p => ('/' :: p.1, p.2)) <$> jstr r
    | 'b' :: r => (fun p => (Char.ofNat 8 :: p.1, p.2)) <$> jstr r
    | 'f' :: r => (fun p => (Char.ofNat 12 :: p.1, p.2)) <$> jstr r
    | 'n' :: r => (fun p => ('\n' :: p.1, p.2)) <$> jstr r
    | 'r' :: r => (fun p => ('\r' :: p.1, p.2)) <$> jstr r
    | 't' :: r => (fun p => ('\t' :: p.1, p.2)) <$> jstr r
    | 'u' :: h1 :: h2 :: h3 :: h4 :: r =>
      match hexVal h1, hexVal h2, hexVal h3, hexVal h4 with
      | some a, some b, some c, some d =>
        let n := ((a * 16 + b) * 16 + c) * 16 + d
        let ch := if 0xD800 ≤ n ∧ n ≤ 0xDFFF then Char.ofNat 0xFFFD else Char.ofNat n
        (fun p => (ch :: p.1, p.2)) <$> jstr r
      | _, _, _, _ => none
    | _ => none
  | c :: rest =>
    if c.toNat < 32 then none else (fun p => (c :: p.1, p.2)) <$> jstr rest

def digitsToNat (ds : List Char) : Nat := ds.foldl (fun a c => a * 10 + (c.toNat - 48)) 0

/-- Read a JSON number (exactly, as a rational). -/
def jnum (cs : List Char) : Option (ℚ × List Char) :=
  let (sign, cs1) : Int × List Char :=
    match cs with
    | '-' :: r => (-1, r)
    | r => (1, r)
  match cs1 with
  | [] => none
  | c :: r =>
    if ¬ c.isDigit then none
    else
      -- JSON forbids leading zeros: "0" stands alone, otherwise digits follow a nonzero digit.
      let intPart : Option (List Char × List Char) :=
        if c = '0' then some ([c], r)
        else some ((c :: r).span Char.isDigit)
      match intPart with
      | none => none
      | some (ids, r1) =>
        let (fds, r2) : List Char × List Char :=
          match r1 with
          | '.' :: rf => rf.span Char.isDigit
          | _ => ([], r1)
        let fracOk : Bool :=
          match r1 with
          | '.' :: _ => ¬ fds.isEmpty
          | _ => true
        match fracOk with
        | false => none
        | true =>
          let (expVal, r3, expOk) : Int × List Char × Bool :=
            match r2 with
            | 'e' :: re | 'E' :: re =>
              let (esign, re1) : Int × List Char :=
                match re with
                | '+' :: rr => (1, rr)
                | '-' :: rr => (-1, rr)
                | rr => (1, rr)
              let (eds, re2) := re1.span Char.isDigit
              (esign * (digitsToNat eds : Int), re2, ¬ eds.isEmpty)
            | _ => (0, r2, true)
          match expOk with
          | false => none
          | true =>
            let mant : Int := sign * (digitsToNat (ids ++ fds) : Int)
            let e : Int := expVal - (fds.length : Int)
            let q : ℚ :=
              if 0 ≤ e then Rat.divInt (mant * (10 : Int) ^ e.toNat) 1
              else Rat.divInt mant ((10 : Int) ^ (-e).toNat)
            some (q, r3)

mutual

/-- Read one JSON value (fuel-based recursion; fuel strictly decreases on
every nested call, `2 * length + 8` fuel always suffices). -/
def jval : Nat → List Char → Option (Jval × List Char)
  | 0, _ => none
  | fuel + 1, cs =>
    match skipWs cs with
    | [] => none
    | c :: r =>
      if c = lbraceChar then
        match skipWs r with
        | c2 :: r2 =>
          if c2 = rbraceChar then some (Jval.obj [], r2)
          else jmembers fuel (c2 :: r2) []
        | [] => none
      else if c = '[' then
        match skipWs r with
        | ']' :: r2 => some (Jval.arr [], r2)
        | r2 => jelems fuel r2 []
      else
        match c :: r with
        | 'n' :: 'u' :: 'l' :: 'l' :: r2 => some (Jval.null, r2)
        | 't' :: 'r' :: 'u' :: 'e' :: r2 => some (Jval.jbool true, r2)
        | 'f' :: 'a' :: 'l' :: 's' :: 'e' :: r2 => some (Jval.jbool false, r2)
        | '"' :: r2 => (fun p => (Jval.str (String.mk p.1), p.2)) <$> jstr r2
        | cs2 =>
          if c = '-' ∨ c.isDigit then (fun p => (Jval.num p.1, p.2)) <$> jnum cs2
          else none

/-- Read the members of a JSON object after the opening brace
(first member onwards; the empty object is handled by `jval`). -/
def jmembers : Nat → List Char → List (String × Jval) → Option (Jval × List Char)
  | 0, _, _ => none
  | fuel + 1, cs, acc =>
    match skipWs cs with
    | '"' :: r =>
      match jstr r with
      | none => none
      | some (key, r1) =>
        match skipWs r1 with
        | ':' :: r2 =>
          match jval fuel r2 with
          | none => none
          | some (v, r3) =>
            let acc' := mapUpsert acc (String.mk key) v
            match skipWs r3 with
            | c2 :: r4 =>
              if c2 = ',' then jmembers fuel r4 acc'
              else if c2 = rbraceChar then some (Jval.obj acc', r4)
              else none
            | [] => none
        | _ => none
    | _ => none

/-- Read the elements of a JSON array after the opening bracket
(first element onwards; the empty array is handled by `jval`). -/
def jelems : Nat → List Char → List Jval → Option (Jval × List Char)
  | 0, _, _ => none
  | fuel + 1, cs, acc =>
    match jval fuel cs with
    | none => none
    | some (v, r) =>
      match skipWs r with
      | ',' :: r2 => jelems fuel r2 (acc ++ [v])
      | ']' :: r2 => some (Jval.arr (acc ++ [v]), r2)
      | _ => none

end

/-- Model of `json.Unmarshal([]byte(line), &raw)` for
`raw : map[string]interface{}`: succeeds iff the line is a single JSON
value that is an object (or `null`, which leaves the map nil). -/
def jsonUnmarshalMap (line : String) : Option (List (String × Jval)) :=
  match jval (2 * line.data.length + 8) line.data with
  | none => none
  | some (v, rest) =>
    if skipWs rest = [] then
      match v with
      | Jval.obj kvs => some kvs
      | Jval.null => some []
      | _ => none
    else none

/-! ## Go string helpers (`strings.Contains`, `ToLower`, `ToUpper`) -/

def hasSub (pat : List Char) : List Char → Bool
  | [] => pat.isEmpty
  | c :: rest => pat.isPrefixOf (c :: rest) || hasSub pat rest

def goContains (s sub : String) : Bool := hasSub sub.data s.data

def goToLower (s : String) : String := String.mk (s.data.map Char.toLower)

def goToUpper (s : String) : String := String.mk (s.data.map Char.toUpper)

/-! ## Go time parsing (`time.Parse` for the layouts used by the parser) -/

def isLeapYear (y : Int) : Bool := (y % 4 == 0 && y % 100 != 0) || y % 400 == 0

def daysInMonth (y m : Int) : Int :=
  if m = 2 then (if isLeapYear y then 29 else 28)
  else if m = 4 ∨ m = 6 ∨ m = 9 ∨ m = 11 then 30
  else 31

/-- Days from the civil epoch 1970-01-01 (Howard Hinnant's algorithm). -/
def daysFromCivil (y m d : Int) : Int :=
  let y' := if m ≤ 2 then y - 1 else y
  let era := Int.fdiv y' 400
  let yoe := y' - era * 400
  let mp := Int.emod (m + 9) 12
  let doy := Int.fdiv (153 * mp + 2) 5 + d - 1
  let doe := yoe * 365 + Int.fdiv yoe 4 - Int.fdiv yoe 100 + doy
  era * 146097 + doe - 719468

def dval (c : Char) : Int := (c.toNat : Int) - 48

/-- Read `YYYY-MM-DD&HH:MM:SS` (with the given separator `sep` between date
and time), validating the calendar ranges as `time.Parse` does. Returns the
epoch seconds (no zone applied) and the remaining characters. -/
def readDT (sep : Char) (cs : List Char) : Option (Int × List Char) :=
  match cs with
  | y1 :: y2 :: y3 :: y4 :: '-' :: m1 :: m2 :: '-' :: d1 :: d2 :: c ::
      h1 :: h2 :: ':' :: mi1 :: mi2 :: ':' :: s1 :: s2 :: rest =>
    if c = sep ∧ [y1, y2, y3, y4, m1, m2, d1, d2, h1, h2, mi1, mi2, s1, s2].all Char.isDigit then
      let y := ((dval y1 * 10 + dval y2) * 10 + dval y3) * 10 + dval y4
      let m := dval m1 * 10 + dval m2
      let d := dval d1 * 10 + dval d2
      let h := dval h1 * 10 + dval h2
      let mi := dval mi1 * 10 + dval mi2
      let s := dval s1 * 10 + dval s2
      if 1 ≤ m ∧ m ≤ 12 ∧ 1 ≤ d ∧ d ≤ daysInMonth y m ∧ h ≤ 23 ∧ mi ≤ 59 ∧ s ≤ 59 then
        some (daysFromCivil y m d * 86400 + h * 3600 + mi * 60 + s, rest)
      else none
    else none
  | _ => none

/-- Read an optional fractional second (Go's `time.Parse` accepts one even
when the layout does not signal it); nanoseconds use the first nine digits. -/
def readFrac (cs : List Char) : Int × List Char :=
  match cs with
  | '.' :: r =>
    let (ds, r2) := r.span Char.isDigit
    if ds.isEmpty then (0, cs)
    else ((digitsToNat ((ds.take 9) ++ List.replicate (9 - ds.length) '0') : Int), r2)
  | _ => (0, cs)

/-- Read an RFC 3339 zone designator: `Z` or `±HH:MM`, as offset seconds. -/
def readZone (cs : List Char) : Option Int :=
  match cs with
  | ['Z'] => some 0
  | sgn :: o1 :: o2 :: ':' :: o3 :: o4 :: [] =>
    if (sgn = '+' ∨ sgn = '-') ∧ [o1, o2, o3, o4].all Char.isDigit then
      let hh := dval o1 * 10 + dval o2
      let mm := dval o3 * 10 + dval o4
      if hh ≤ 23 ∧ mm ≤ 59 then
        some ((if sgn = '-' then -1 else 1) * (hh * 3600 + mm * 60))
      else none
    else none
  | _ => none

/-- Model of `time.Parse(time.RFC3339, v)`, in epoch nanoseconds. -/
def goTimeParseRFC3339 (v : String) : Option Int :=
  match readDT 'T' v.data with
  | none => none
  | some (secs, rest) =>
    let (fracNs, rest2) := readFrac rest
    match readZone rest2 with
    | none => none
    | some off => some ((secs - off) * 1000000000 + fracNs)

/-- Model of `time.Parse(time.RFC3339Nano, v)`. Under Go's rule that a
fractional second is accepted even when the layout does not signal it, the
`RFC3339` and `RFC3339Nano` layouts accept the same strings, so this second
chain link shares the implementation of `goTimeParseRFC3339`. -/
def goTimeParseRFC3339Nano (v : String) : Option Int := goTimeParseRFC3339 v

/-- Model of `time.Parse("2006-01-02 15:04:05", v)` (no zone: UTC). -/
def goTimeParseDateTime (v : String) : Option Int :=
  match readDT ' ' v.data with
  | none => none
  | some (secs, rest) =>
    let (fracNs, rest2) := readFrac rest
    match rest2 with
    | [] => some (secs * 1000000000 + fracNs)
    | _ => none

/-- Model of `strconv.ParseInt(v, 10, 64)`. -/
def goParseInt (v : String) : Option Int :=
  let (sign, ds) : Int × List Char :=
    match v.data with
    | '+' :: r => (1, r)
    | '-' :: r => (-1, r)
    | r => (1, r)
  if ds ≠ [] ∧ ds.all Char.isDigit then
    let val : Int := sign * (digitsToNat ds : Int)
    if -(2 ^ 63) ≤ val ∧ val ≤ 2 ^ 63 - 1 then some val else none
  else none

/-! ## `internal/types` -/

def InfoLevel : String := "INFO"

def WarnLevel : String := "WARN"

def ErrorLevel : String := "ERROR"

def DebugLevel : String := "DEBUG"

def UnknownLevel : String := "UNKNOWN"

/-- `types.LogEntry`: one parsed log line. Field defaults are the Go zero
values (`LogLevel` is a string type whose zero value is `""`). -/
structure LogEntry where
  timestamp : Int := 0
  message : String := ""
  level : String := ""
  statusCode : Int := 0
  latency : Int := 0
  endpoint : String := ""
  fields : List (String × Jval) := []

/-! ## `internal/parser` -/

/-- `parser.parseLevel`. -/
def parseLevel (level : String) : String :=
  let l := goToUpper level
  if l = "INFO" then InfoLevel
  else if l = "WARN" ∨ l = "WARNING" then WarnLevel
  else if l = "ERROR" ∨ l = "ERR" then ErrorLevel
  else if l = "DEBUG" then DebugLevel
  else UnknownLevel

/-- `parser.parseTimestamp`: string values try RFC3339, RFC3339Nano,
`2006-01-02 15:04:05`, then a decimal Unix-seconds string; `float64`
values are Unix seconds truncated to `int64`; everything else, and any
parse failure, falls back to `time.Now()` (the `now` parameter). -/
def parseTimestamp (ts : Jval) (now : Int) : Int :=
  match ts with
  | Jval.str v =>
    match goTimeParseRFC3339 v with
    | some t => t
    | none =>
      match goTimeParseRFC3339Nano v with
      | some t => t
      | none =>
        match goTimeParseDateTime v with
        | some t => t
        | none =>
          match goParseInt v with
          | some i => i * Second
          | none => now
  | Jval.num v => truncQ v * Second
  | _ => now

/-- The `LogEntry` that `JSONParser.Parse` builds from a decoded object.
Non-string and non-number values for the typed keys leave the Go zero
value in place, exactly as the failed type assertions do in the source. -/
def JSONParser.entryOf (now : Int) (raw : List (String × Jval)) : LogEntry :=
  { timestamp :=
      match lookupJ raw "timestamp" with
      | some v => parseTimestamp v now
      | none =>
        match lookupJ raw "ts" with
        | some v => parseTimestamp v now
        | none =>
          match lookupJ raw "time" with
          | some v => parseTimestamp v now
          | none => now
    message :=
      match lookupJ raw "message" with
      | some (Jval.str s) => s
      | some _ => ""
      | none =>
        match lookupJ raw "msg" with
        | some (Jval.str s) => s
        | _ => ""
    level :=
      match lookupJ raw "level" with
      | some (Jval.str s) => parseLevel s
      | some _ => ""
      | none => InfoLevel
    statusCode :=
      match lookupJ raw "status" with
      | some (Jval.num q) => truncQ q
      | some _ => 0
      | none =>
        match lookupJ raw "code" with
        | some (Jval.num q) => truncQ q
        | _ => 0
    latency :=
      match lookupJ raw "latency" with
      | some (Jval.num q) => truncQ q * Millisecond
      | _ => 0
    endpoint :=
      match lookupJ raw "endpoint" with
      | some (Jval.str s) => s
      | some _ => ""
      | none =>
        match lookupJ raw "path" with
        | some (Jval.str s) => s
        | _ => ""
    fields := raw }

/-- `parser.JSONParser.Parse`: claims the line iff it unmarshals into a
string-keyed object. -/
def JSONParser.Parse (now : Int) (line : String) : Option LogEntry :=
  match jsonUnmarshalMap line with
  | none => none
  | some raw => some (JSONParser.entryOf now raw)

/-- `parser.NginxParser.Parse`. The source returns
`types.LogEntry{}, false` unconditionally before its matching logic
("Temporarily disable NginxParser"); everything after that `return` is
dead code, so the faithful embedding claims no line. -/
def NginxParser.Parse (_line : String) : Option LogEntry := none

/-- The `level` local of `LineParser.Parse`: ERROR if the lowercased line
contains "error", WARN if it contains "warn", else INFO. -/
def lineLevel (line : String) : String :=
  if goContains (goToLower line) "error" then ErrorLevel
  else if goContains (goToLower line) "warn" then WarnLevel
  else InfoLevel

/-- `parser.LineParser.Parse`: the whole line is the message, the level is
scanned from the lowercased line, and the timestamp is `time.Now()`. -/
def LineParser.Parse (now : Int) (line : String) : Option LogEntry :=
  some { timestamp := now, message := line, level := lineLevel line }

/-- `parser.MultiParser.Parse` for the chain built in `main.go`:
`JSONParser`, `NginxParser`, `LineParser`, first claim wins. -/
def MultiParser.Parse (now : Int) (line : String) : Option LogEntry :=
  match JSONParser.Parse now line with
  | some e => some e
  | none =>
    match NginxParser.Parse line with
    | some e => some e
    | none => LineParser.Parse now line

/-! ## `internal/storage` -/

/-- One row of the `log_entries` table (`fields` stands for the serialized
JSON text; `json.Marshal` followed by `json.Unmarshal` is the identity on
the canonical decoded values stored there). -/
structure LogRow where
  timestamp : Int
  message : String
  level : String
  statusCode : Int
  latencyMs : Int
  endpoint : String
  fields : List (String × Jval)

/-- The table, in rowid (insertion) order. -/
abbrev Storage := List LogRow

/-- The row that `InsertLogEntry` writes for a record: the latency is
stored as whole milliseconds (`entry.Latency.Milliseconds()`), everything
else verbatim. -/
def entryToRow (entry : LogEntry) : LogRow :=
  { timestamp := entry.timestamp
    message := entry.message
    level := entry.level
    statusCode := entry.statusCode
    latencyMs := durMilliseconds entry.latency
    endpoint := entry.endpoint
    fields := entry.fields }

/-- `storage.Storage.InsertLogEntry`: appends one row. -/
def Storage.InsertLogEntry (s : Storage) (entry : LogEntry) : Storage :=
  s ++ [entryToRow entry]

/-- Decoding a scanned row back into a `types.LogEntry`
(`time.Duration(latencyMs) * time.Millisecond`). -/
def rowToEntry (r : LogRow) : LogEntry :=
  { timestamp := r.timestamp
    message := r.message
    level := r.level
    statusCode := r.statusCode
    latency := r.latencyMs * 1000000
    endpoint := r.endpoint
    fields := r.fields }

/-- `storage.Storage.GetLogEntriesSince`: `WHERE timestamp >= since ORDER
BY timestamp ASC`. The scan over the timestamp index returns equal
timestamps in rowid order, i.e. a stable sort by timestamp. -/
def Storage.GetLogEntriesSince (s : Storage) (since : Int) : List LogEntry :=
  (List.insertionSort (fun a b : LogRow => a.timestamp ≤ b.timestamp)
      (s.filter (fun r => decide (since ≤ r.timestamp)))).map rowToEntry

/-- `storage.Storage.PruneOldEntries`: `DELETE ... WHERE timestamp < olderThan`. -/
def Storage.PruneOldEntries (s : Storage) (olderThan : Int) : Storage :=
  s.filter (fun r => decide (olderThan ≤ r.timestamp))

/-- The record that comes back from the store for an inserted record
(`rowToEntry` applied to the row `InsertLogEntry` builds): all fields
equal except the latency, which is truncated to whole milliseconds. -/
def normalizeEntry (e : LogEntry) : LogEntry :=
  { e with latency := durMilliseconds e.latency * 1000000 }

/-! ## `montanaflynn/stats.Percentile` -/

/-- `stats.Percentile`: sorts a copy, scales the percent to an index, and
either takes the value at a whole index or the mean of the two values
around a fractional index; `none` models the error returns (empty input,
percent out of `(0, 100]`, fractional index at most 1). -/
def Stats.Percentile (input : List ℚ) (percent : ℚ) : Option ℚ :=
  if input.length = 0 then none
  else if input.length = 1 then some input.headI
  else if percent ≤ 0 ∨ 100 < percent then none
  else
    let c := List.insertionSort (fun a b : ℚ => a ≤ b) input
    let index : ℚ := qmul (qdiv percent 100) (c.length : ℚ)
    if index = (truncQ index : ℚ) then
      some (c.getD ((truncQ index).toNat - 1) 0)
    else if 1 < index then
      some (qdiv (qadd (c.getD ((truncQ index).toNat - 1) 0) (c.getD (truncQ index).toNat 0)) 2)
    else none

/-! ## `internal/analysis` -/

def defaultWindow : Int := 5 * Minute

def defaultTickInterval : Int := 1 * Second

def pruneInterval : Int := 1 * Hour

def maxDBAge : Int := 7 * 24 * Hour

def maxMetricsHistory : Nat := 20

/-- The condition under which a record's latency is sampled:
`entry.StatusCode < 400 && entry.Latency > 0`. -/
def latencyEligible (e : LogEntry) : Bool :=
  decide (e.statusCode < 400) && decide (0 < e.latency)

/-- The latency sample a record contributes:
`float64(entry.Latency.Milliseconds())`. -/
def latencySample (e : LogEntry) : ℚ := ((durMilliseconds e.latency : Int) : ℚ)

/-- The state of `analysis.Engine` that the insert path touches. The
fields not modelled (tick interval, trend histories, EWMA, the published
`metrics` value, channels and the mutex) do not feed back into these. -/
structure Engine where
  windowDuration : Int
  windows : List (String × Int)
  logEntries : List LogEntry
  latencies : List ℚ
  dirty : Bool
  storage : Storage

/-- `analysis.NewEngine` (fresh store). -/
def NewEngine : Engine :=
  { windowDuration := defaultWindow
    windows := [("1m", 1 * Minute), ("5m", 5 * Minute), ("1h", 1 * Hour)]
    logEntries := []
    latencies := []
    dirty := false
    storage := [] }

/-- Whether `prune` drops a record from the front of the recency buffer:
`now.Sub(entry.Timestamp) > e.windowDuration`. -/
def entryTooOld (now windowDuration : Int) (entry : LogEntry) : Bool :=
  decide (windowDuration < now - entry.timestamp)

/-- `analysis.Engine.prune`: pops records from the front of `logEntries`
while they are older than `windowDuration`, stopping at the first that is
not; then rebuilds `latencies` from the remaining records. -/
def Engine.prune (e : Engine) (now : Int) : Engine :=
  let remaining := e.logEntries.dropWhile (entryTooOld now e.windowDuration)
  { e with
    logEntries := remaining
    latencies := (remaining.filter latencyEligible).map latencySample }

/-- `analysis.Engine.addLogEntry`: append to the recency buffer, insert
into the store, sample the latency when eligible, set the dirty flag, and
prune (with `now` captured on entry). -/
def Engine.addLogEntry (e : Engine) (entry : LogEntry) (now : Int) : Engine :=
  let e1 : Engine :=
    { e with
      logEntries := e.logEntries ++ [entry]
      storage := Storage.InsertLogEntry e.storage entry
      latencies :=
        if latencyEligible entry then e.latencies ++ [latencySample entry] else e.latencies
      dirty := true }
  e1.prune now

/-- `types.WindowedMetrics`. Count maps are modelled as count functions. -/
structure WindowedMetrics where
  rps : ℚ
  errorRate : ℚ
  p50Latency : Int
  p90Latency : Int
  p95Latency : Int
  p99Latency : Int
  topEndpoints : String → Nat
  totalRequests : Int
  totalErrors : Int
  statusCodeDistribution : String → Nat
  custom : String → Nat

/-- The status-category bucket of `computeWindowedMetrics`. -/
def statusCodeCategory (code : Int) : String :=
  if 100 ≤ code ∧ code < 200 then "1xx"
  else if 200 ≤ code ∧ code < 300 then "2xx"
  else if 300 ≤ code ∧ code < 400 then "3xx"
  else if 400 ≤ code ∧ code < 500 then "4xx"
  else if 500 ≤ code ∧ code < 600 then "5xx"
  else "Other"

/-- One percentile entry of `computeWindowedMetrics`:
`time.Duration(value) * time.Millisecond` with the error return ignored
(the ignored error can never fire at these call sites, see
`Percentile_isSome_of_calls`). -/
def percentileDur (latencies : List ℚ) (p : ℚ) : Int :=
  truncQ ((Stats.Percentile latencies p).getD 0) * 1000000

/-- `analysis.Engine.computeWindowedMetrics` (identical in both engine
revisions): one pass accumulates the totals, the eligible latencies and
the count maps; then RPS, error rate and the four percentile durations. -/
def Engine.computeWindowedMetrics (entries : List LogEntry) (window : Int) : WindowedMetrics :=
  if entries.length = 0 then
    { rps := 0, errorRate := 0
      p50Latency := 0, p90Latency := 0, p95Latency := 0, p99Latency := 0
      topEndpoints := fun _ => 0
      totalRequests := 0, totalErrors := 0
      statusCodeDistribution := fun _ => 0
      custom := fun _ => 0 }
  else
    let latencies : List ℚ := (entries.filter latencyEligible).map latencySample
    let totalRequests : Int := (entries.length : Int)
    let totalErrors : Int := (entries.countP (fun e => decide (400 ≤ e.statusCode)) : Int)
    let rps : ℚ :=
      if 0 < window then qdiv (totalRequests : ℚ) (durSeconds window) else 0
    let errorRate : ℚ :=
      if 0 < totalRequests then qmul (qdiv (totalErrors : ℚ) (totalRequests : ℚ)) 100 else 0
    let hasLat : Bool := decide (0 < latencies.length)
    { rps := rps
      errorRate := errorRate
      p50Latency := if hasLat then percentileDur latencies 50 else 0
      p90Latency := if hasLat then percentileDur latencies 90 else 0
      p95Latency := if hasLat then percentileDur latencies 95 else 0
      p99Latency := if hasLat then percentileDur latencies 99 else 0
      topEndpoints := fun s =>
        if s = "" then 0 else entries.countP (fun e => e.endpoint == s)
      totalRequests := totalRequests
      totalErrors := totalErrors
      statusCodeDistribution := fun s => entries.countP (fun e => statusCodeCategory e.statusCode == s)
      custom := fun _ => 0 }

/-- The events the `runTicker` select loop can react to: a record arriving
in the insert loop (which sets the dirty flag under the mutex), the
one-second ticker firing, and the loop's `default` branch running because
neither channel was ready. -/
inductive EngineEvent where
  | insert : EngineEvent
  | tick : EngineEvent
  | selDefault : EngineEvent
deriving DecidableEq

/-- The publication protocol of `analysis.Engine.runTicker` (the revision
with the `initialScan` guard on the `default` branch), projected onto the
state it reads and writes: the dirty flag and the number of snapshots sent
on `metricsChan`. On a tick with the dirty flag set the loop computes,
publishes once and clears the flag; the `default` branch does the same
whenever the engine is in live mode (`!e.initialScan`). -/
def tickerStep (initialScan : Bool) (s : Bool × Nat) (ev : EngineEvent) : Bool × Nat :=
  match ev with
  | EngineEvent.insert => (true, s.2)
  | EngineEvent.tick => if s.1 then (false, s.2 + 1) else s
  | EngineEvent.selDefault =>
    if initialScan = false then (if s.1 then (false, s.2 + 1) else s) else s

/-- Total number of snapshots `runTicker` publishes along an event trace,
starting from a clean engine. -/
def runTickerPublished (initialScan : Bool) (evs : List EngineEvent) : Nat :=
  (evs.foldl (tickerStep initialScan) (false, 0)).2

/-- The canonical combined-format access-log line used as the concrete
input for the Nginx-parser claim. -/
def canonicalNginxLine : String :=
  "127.0.0.1 - frank [10/Oct/2000:13:55:36 -0700] \"GET /apache_pb.gif HTTP/1.0\" 200 2326 \"-\" \"Mozilla/4.08 (Macintosh; I; PPC)\" 0.005"

/-- Concrete record with only a timestamp (all other fields Go zero values). -/
def recAt (t : Int) : LogEntry := { timestamp := t }

/-- Concrete in-horizon record: fresh, status 200, no latency sample. -/
def c10fresh : LogEntry := { timestamp := 10 * Hour, statusCode := 200, latency := 0 }

/-- Concrete out-of-horizon record with an eligible latency. -/
def c10staleOk : LogEntry := { timestamp := 1 * Hour, statusCode := 200, latency := 5 * Millisecond }

/-- Concrete out-of-horizon record whose error status makes its latency
ineligible. -/
def c10staleErr : LogEntry := { timestamp := 1 * Hour, statusCode := 500, latency := 5 * Millisecond }

/-- Engine whose recency buffer holds an in-horizon record followed by an
out-of-horizon eligible record. -/
def c10engOk : Engine := { NewEngine with logEntries := [c10fresh, c10staleOk] }

/-- Engine whose recency buffer holds an in-horizon record followed by an
out-of-horizon error record. -/
def c10engErr : Engine := { NewEngine with logEntries := [c10fresh, c10staleErr] }

/-- Concrete successful record with a 5 ms latency sample. -/
def c8entry : LogEntry := { statusCode := 200, latency := 5 * Millisecond }

/-- Concrete record inserted first, with the later timestamp. -/
def c5r1 : LogEntry :=
  { timestamp := 10 * Second, message := "a", level := "INFO", statusCode := 200,
    latency := 1500000, endpoint := "/x" }

/-- Concrete record inserted second, with the earlier timestamp. -/
def c5r2 : LogEntry :=
  { timestamp := 5 * Second, message := "b", level := "ERROR", statusCode := 500 }

/-- A JSON line whose object carries no `level` key. -/
def c9lineNoLevel : String := "\x7b\"a\":1\x7d"

/-- The decoded object of `c9lineNoLevel`. -/
def c9rawNoLevel : List (String × Jval) := [("a", Jval.num 1)]

/-- A JSON line whose `level` value is a number, not a string. -/
def c9lineNumLevel : String := "\x7b\"level\":5\x7d"

/-- The decoded object of `c9lineNumLevel`. -/
def c9rawNumLevel : List (String × Jval) := [("level", Jval.num 5)]

/-! ## Bridge lemmas: the kernel-computable rational operations agree with
the field operations of `ℚ` -/

theorem qden_cast_ne_zero (a : ℚ) : ((a.den : ℚ)) ≠ 0 := by
  exact_mod_cast a.den_nz

theorem qadd_eq (a b : ℚ) : qadd a b = a + b := by
  conv_rhs => rw [← Rat.num_divInt_den a, ← Rat.num_divInt_den b]
  rw [Rat.divInt_add_divInt _ _ (Int.natCast_ne_zero.mpr a.den_nz)
    (Int.natCast_ne_zero.mpr b.den_nz), qadd]

theorem qmul_eq (a b : ℚ) : qmul a b = a * b := by
  conv_rhs => rw [← Rat.num_divInt_den a, ← Rat.num_divInt_den b]
  rw [Rat.divInt_mul_divInt', qmul]

theorem qdiv_eq (a b : ℚ) : qdiv a b = a / b := by
  conv_rhs => rw [div_eq_mul_inv, Rat.inv_def', ← Rat.num_divInt_den a]
  rw [Rat.divInt_mul_divInt', qdiv]

theorem truncQ_intCast (n : Int) : truncQ (n : ℚ) = n := by
  rw [truncQ, Rat.num_intCast, Rat.den_intCast]
  exact Int.tdiv_one n

theorem truncQ_eq_floor {q : ℚ} (h : 0 ≤ q) : truncQ q = ⌊q⌋ := by
  rw [truncQ, Rat.floor_def]
  exact Int.tdiv_eq_ediv (Rat.num_nonneg.mpr h) (Int.natCast_nonneg _)

theorem truncQ_mono_nonneg {x y : ℚ} (hx : 0 ≤ x) (hxy : x ≤ y) : truncQ x ≤ truncQ y := by
  rw [truncQ_eq_floor hx, truncQ_eq_floor (hx.trans hxy)]
  exact Int.floor_le_floor hxy

/-! ## List helper lemmas for the prune path -/

theorem dropWhile_take_one_not {α : Type} (p : α → Bool) (l : List α) :
    ∀ x ∈ (l.dropWhile p).take 1, p x = false := by
  induction l with
  | nil => simp
  | cons a t ih =>
    by_cases h : p a
    · simpa [List.dropWhile_cons, h] using ih
    · intro x hx
      rw [List.dropWhile_cons, if_neg (by simp [h])] at hx
      simp only [List.take_succ_cons, List.take_zero, List.mem_singleton] at hx
      subst hx
      simpa using h

theorem get_mem_dropWhile_of_earlier {α : Type} (p : α → Bool) :
    ∀ (l : List α) (i j : Nat) (hi : i < l.length) (hj : j < l.length), i ≤ j →
      p (l.get ⟨i, hi⟩) = false → l.get ⟨j, hj⟩ ∈ l.dropWhile p := by
  intro l
  induction l with
  | nil => intro i j hi hj _ _; simp at hj
  | cons a t ih =>
    intro i j hi hj hij hp
    have hi' := hi
    have hj' := hj
    simp only [List.length_cons] at hi' hj'
    cases i with
    | zero =>
      rw [List.dropWhile_cons, if_neg (by simpa using hp)]
      exact List.get_mem _ _ _
    | succ i' =>
      cases j with
      | zero => omega
      | succ j' =>
        by_cases h : p a
        · rw [List.dropWhile_cons, if_pos h]
          exact ih i' j' (by omega) (by omega) (by omega) hp
        · rw [List.dropWhile_cons, if_neg h]
          exact List.get_mem _ _ _

/-! ## Claim C1 -/

/-- C1 (corrected). The original claim — after `addLogEntry` every retained
record is within the largest tracked window horizon (1 hour) of the
insertion time — is false: `prune` uses `windowDuration = defaultWindow`
(5 minutes, not the 1-hour maximum of the `windows` map) and removes only
a prefix. Amended statement: after `addLogEntry` the recency buffer is the
previous buffer plus the new record with the longest prefix of records
older than `defaultWindow` removed, so the first retained record (if any)
is within `defaultWindow` of the insertion time, and the latency array is
rebuilt to exactly the eligible latencies of the retained records. -/
theorem C1_prune_to_default_window (e : Engine) (entry : LogEntry) (now : Int)
    (hw : e.windowDuration = defaultWindow) :
    (e.addLogEntry entry now).logEntries
        = (e.logEntries ++ [entry]).dropWhile (entryTooOld now defaultWindow)
      ∧ (∀ r ∈ ((e.addLogEntry entry now).logEntries).take 1,
          now - r.timestamp ≤ defaultWindow)
      ∧ (e.addLogEntry entry now).latencies
        = (((e.addLogEntry entry now).logEntries).filter latencyEligible).map latencySample := by
  have hlog : (e.addLogEntry entry now).logEntries
      = (e.logEntries ++ [entry]).dropWhile (entryTooOld now e.windowDuration) := rfl
  refine ⟨by rw [hlog, hw], ?_, rfl⟩
  intro r hr
  rw [hlog] at hr
  have h := dropWhile_take_one_not (entryTooOld now e.windowDuration)
    (e.logEntries ++ [entry]) r hr
  rw [hw] at h
  simp only [entryTooOld, decide_eq_false_iff_not, not_lt] at h
  exact h

/-- Closed witness for `C1_prune_to_default_window`. -/
theorem C1_witness :
    NewEngine.windowDuration = defaultWindow
      ∧ ((NewEngine.addLogEntry (recAt 0) 0).logEntries
            = (NewEngine.logEntries ++ [recAt 0]).dropWhile (entryTooOld 0 defaultWindow)
          ∧ (∀ r ∈ ((NewEngine.addLogEntry (recAt 0) 0).logEntries).take 1,
              0 - r.timestamp ≤ defaultWindow)
          ∧ (NewEngine.addLogEntry (recAt 0) 0).latencies
            = (((NewEngine.addLogEntry (recAt 0) 0).logEntries).filter
                latencyEligible).map latencySample) :=
  ⟨rfl, C1_prune_to_default_window NewEngine (recAt 0) 0 rfl⟩

/-- C1 counterexample: insert a fresh record (timestamp = insertion time
10h) and then a two-hour-old record (timestamp 8h). The prune loop stops
at the fresh front record, so the two-hour-old record stays in the
recency buffer even though it is outside the 1-hour largest window. -/
theorem C1_counterexample :
    ¬ (∀ r ∈ ((NewEngine.addLogEntry (recAt (10 * Hour)) (10 * Hour)).addLogEntry
          (recAt (8 * Hour)) (10 * Hour)).logEntries,
        10 * Hour - r.timestamp ≤ 1 * Hour) := by
  intro h
  have hm : recAt (8 * Hour) ∈
      ((NewEngine.addLogEntry (recAt (10 * Hour)) (10 * Hour)).addLogEntry
        (recAt (8 * Hour)) (10 * Hour)).logEntries := by
    have heq : ((NewEngine.addLogEntry (recAt (10 * Hour)) (10 * Hour)).addLogEntry
        (recAt (8 * Hour)) (10 * Hour)).logEntries
        = [recAt (10 * Hour), recAt (8 * Hour)] := rfl
    rw [heq]
    exact List.mem_cons_of_mem _ (List.mem_singleton.mpr rfl)
  have hle := h _ hm
  simp only [recAt, Hour, Minute, Second] at hle
  omega

/-! ## Claim C10 -/

/-- C10 (corrected). Prune removes only a contiguous prefix: it deletes
from the front and stops at the first in-horizon record, so a later
out-of-horizon record is retained; it contributes its latency to the
rebuilt latency array provided its status is below 400 and its latency is
positive (the original claim omitted that eligibility condition). -/
theorem C10_prune_front_only (e : Engine) (now : Int) (i j : Nat)
    (hi : i < e.logEntries.length) (hj : j < e.logEntries.length) (hij : i < j)
    (hin : entryTooOld now e.windowDuration (e.logEntries.get ⟨i, hi⟩) = false)
    (_hout : entryTooOld now e.windowDuration (e.logEntries.get ⟨j, hj⟩) = true) :
    (e.prune now).logEntries = e.logEntries.dropWhile (entryTooOld now e.windowDuration)
      ∧ e.logEntries.get ⟨j, hj⟩ ∈ (e.prune now).logEntries
      ∧ (latencyEligible (e.logEntries.get ⟨j, hj⟩) = true →
          latencySample (e.logEntries.get ⟨j, hj⟩) ∈ (e.prune now).latencies) := by
  have hmem : e.logEntries.get ⟨j, hj⟩ ∈ (e.prune now).logEntries :=
    get_mem_dropWhile_of_earlier _ e.logEntries i j hi hj (le_of_lt hij) hin
  refine ⟨rfl, hmem, fun hel => ?_⟩
  exact List.mem_map_of_mem _ (List.mem_filter.mpr ⟨hmem, hel⟩)

/-- Closed witness for `C10_prune_front_only`: a fresh in-horizon
record followed by an eligible record nine hours old; the old record is
retained and its 5 ms sample is in the rebuilt latency array. -/
theorem C10_witness :
    (0 : Nat) < c10engOk.logEntries.length
      ∧ latencySample c10staleOk ∈ (c10engOk.prune (10 * Hour)).latencies := by
  constructor
  · decide
  · exact ((C10_prune_front_only c10engOk (10 * Hour) 0 1 (by decide) (by decide)
      (by decide) (by decide) (by decide)).2.2 (by decide))

/-- C10 counterexample to the original wording: with a fresh zero-latency
front record and a nine-hours-old status-500 record behind it, the old
record is retained (prune removes only a prefix and it sits behind an
in-horizon record) but contributes nothing to the rebuilt latency array,
which is empty — an out-of-horizon record does not always contribute. -/
theorem C10_counterexample :
    c10staleErr ∈ (c10engErr.prune (10 * Hour)).logEntries
      ∧ (c10engErr.prune (10 * Hour)).latencies = []
      ∧ entryTooOld (10 * Hour) defaultWindow c10staleErr = true
      ∧ entryTooOld (10 * Hour) defaultWindow c10fresh = false := by
  refine ⟨?_, rfl, by decide, by decide⟩
  have heq : (c10engErr.prune (10 * Hour)).logEntries = [c10fresh, c10staleErr] := rfl
  rw [heq]
  exact List.mem_cons_of_mem _ (List.mem_singleton.mpr rfl)

/-! ## Claim C2 -/

/-- C2 (code bug). The claim — a snapshot is published only when the
one-second ticker fires with the dirty flag set, never between two ticker
firings — is the spec's stated intent, but `runTicker`'s select loop has a
`default` branch that publishes whenever the engine is dirty in live mode.
The trace below contains one record arrival and one `default`-branch
execution and no ticker firing at all, yet one snapshot is published. -/
theorem C2_default_branch_publishes :
    runTickerPublished false [EngineEvent.insert, EngineEvent.selDefault] = 1
      ∧ EngineEvent.tick ∉ [EngineEvent.insert, EngineEvent.selDefault] := by
  decide

/-! ## Claim C3 -/

/-- C3 (code bug). The claim — the access-log parser claims every
canonical combined-format line, extracting endpoint, request-time latency
and status-derived level — describes the intended behaviour, but
`NginxParser.Parse` returns `false` for every line: the function opens
with `return types.LogEntry{}, false` under the comment "Temporarily
disable NginxParser", making all its matching logic dead code. In
particular the canonical combined-format line is not claimed. -/
theorem C3_nginx_disabled :
    NginxParser.Parse canonicalNginxLine = none
      ∧ ∀ line : String, NginxParser.Parse line = none :=
  ⟨rfl, fun _ => rfl⟩

/-! ## Claim C6 -/

/-- C6 (confirmed). For every record set and window, the windowed metrics
satisfy `totalErrors ≤ totalRequests` and `0 ≤ errorRate ≤ 100`, with
`errorRate = 100 · totalErrors / totalRequests` when `totalRequests > 0`
and `0` otherwise. -/
theorem C6_error_rate_bounds (entries : List LogEntry) (window : Int) :
    (Engine.computeWindowedMetrics entries window).totalErrors
        ≤ (Engine.computeWindowedMetrics entries window).totalRequests
      ∧ 0 ≤ (Engine.computeWindowedMetrics entries window).errorRate
      ∧ (Engine.computeWindowedMetrics entries window).errorRate ≤ 100
      ∧ (Engine.computeWindowedMetrics entries window).errorRate
        = (if 0 < (Engine.computeWindowedMetrics entries window).totalRequests then
            100 * ((Engine.computeWindowedMetrics entries window).totalErrors : ℚ)
              / ((Engine.computeWindowedMetrics entries window).totalRequests : ℚ)
          else 0) := by
  by_cases h : entries.length = 0
  · simp [Engine.computeWindowedMetrics, h]
  · have hpos : 0 < entries.length := Nat.pos_of_ne_zero h
    have hposZ : (0 : Int) < (entries.length : Int) := by exact_mod_cast hpos
    have hcount : (entries.countP (fun e => decide (400 ≤ e.statusCode))) ≤ entries.length :=
      List.countP_le_length _
    have hcountZ : ((entries.countP (fun e => decide (400 ≤ e.statusCode)) : Int))
        ≤ (entries.length : Int) := by exact_mod_cast hcount
    have hcastpos : (0 : ℚ) < ((entries.length : Int) : ℚ) := by exact_mod_cast hposZ
    have hcastnn : (0 : ℚ) ≤ ((entries.countP (fun e => decide (400 ≤ e.statusCode)) : Int) : ℚ) := by
      positivity
    have hcastle : ((entries.countP (fun e => decide (400 ≤ e.statusCode)) : Int) : ℚ)
        ≤ ((entries.length : Int) : ℚ) := by exact_mod_cast hcountZ
    simp only [Engine.computeWindowedMetrics, if_neg h, if_pos hposZ, qmul_eq, qdiv_eq]
    refine ⟨hcountZ, ?_, ?_, ?_⟩
    · positivity
    · have hdiv : ((entries.countP (fun e => decide (400 ≤ e.statusCode)) : Int) : ℚ)
          / ((entries.length : Int) : ℚ) ≤ 1 :=
        (div_le_one hcastpos).mpr hcastle
      nlinarith
    · ring

/-! ## Claim C7 -/

/-- C7 (confirmed). The windowed metrics report
`RPS = totalRequests / H.seconds` for a positive horizon `H` and `RPS = 0`
for the synthetic zero horizon (where the division branch is not taken). -/
theorem C7_rps (entries : List LogEntry) (window : Int) :
    (0 < window →
        (Engine.computeWindowedMetrics entries window).rps
          = ((Engine.computeWindowedMetrics entries window).totalRequests : ℚ)
              / durSeconds window)
      ∧ (window = 0 → (Engine.computeWindowedMetrics entries window).rps = 0) := by
  by_cases h : entries.length = 0
  · constructor
    · intro _
      simp [Engine.computeWindowedMetrics, h]
    · intro _
      simp [Engine.computeWindowedMetrics, h]
  · constructor
    · intro hw
      simp only [Engine.computeWindowedMetrics, if_neg h, if_pos hw, qdiv_eq]
    · intro hw
      subst hw
      simp only [Engine.computeWindowedMetrics, if_neg h, if_neg (lt_irrefl (0 : Int))]

/-- Closed witness for `C7_rps`: one status-200 record in a 5-minute
window. -/
theorem C7_witness :
    ((0 : Int) < 5 * Minute
        ∧ (Engine.computeWindowedMetrics [{ statusCode := 200 }] (5 * Minute)).rps
          = ((Engine.computeWindowedMetrics [{ statusCode := 200 }] (5 * Minute)).totalRequests : ℚ)
              / durSeconds (5 * Minute))
      ∧ (Engine.computeWindowedMetrics [{ statusCode := 200 }] 0).rps = 0 :=
  ⟨⟨by decide, (C7_rps [{ statusCode := 200 }] (5 * Minute)).1 (by decide)⟩,
    (C7_rps [{ statusCode := 200 }] 0).2 rfl⟩

/-! ## Percentile lemmas -/

theorem sorted_getD_mono {c : List ℚ} (hc : List.Sorted (fun a b : ℚ => a ≤ b) c)
    {i j : Nat} (hij : i ≤ j) (hj : j < c.length) : c.getD i 0 ≤ c.getD j 0 := by
  have hi : i < c.length := lt_of_le_of_lt hij hj
  rw [List.getD_eq_getElem?_getD, List.getD_eq_getElem?_getD,
    List.getElem?_eq_getElem hi, List.getElem?_eq_getElem hj]
  simp only [Option.getD_some]
  rcases eq_or_lt_of_le hij with h | h
  · subst h
    exact le_refl _
  · exact List.pairwise_iff_getElem.mp hc i j hi hj h

theorem getD_nonneg {c : List ℚ} (h : ∀ x ∈ c, 0 ≤ x) (i : Nat) : 0 ≤ c.getD i 0 := by
  rw [List.getD_eq_getElem?_getD]
  rcases lt_or_ge i c.length with hi | hi
  · rw [List.getElem?_eq_getElem hi]
    exact h _ (List.getElem_mem hi)
  · rw [List.getElem?_eq_none hi]
    simp

/-- The error return of `stats.Percentile` cannot fire at the engine's
call sites: the latency vector is non-empty and the percent is one of
50, 90, 95, 99. -/
theorem Percentile_isSome {input : List ℚ} {p : ℚ} (hne : input ≠ [])
    (h50 : 50 ≤ p) (h100 : p ≤ 100) : ∃ a, Stats.Percentile input p = some a := by
  have h0 : ¬ input.length = 0 := by simpa [List.length_eq_zero] using hne
  simp only [Stats.Percentile]
  rw [if_neg h0]
  by_cases h1 : input.length = 1
  · rw [if_pos h1]
    exact ⟨_, rfl⟩
  · rw [if_neg h1]
    have hguard : ¬ (p ≤ 0 ∨ 100 < p) := by
      push_neg
      exact ⟨by linarith, h100⟩
    rw [if_neg hguard]
    have hn2 : 2 ≤ input.length := by omega
    have hcl : (List.insertionSort (fun a b : ℚ => a ≤ b) input).length = input.length :=
      List.length_insertionSort _ _
    rw [hcl]
    by_cases hW : qmul (qdiv p 100) (input.length : ℚ)
        = ((truncQ (qmul (qdiv p 100) (input.length : ℚ)) : Int) : ℚ)
    · rw [if_pos hW]
      exact ⟨_, rfl⟩
    · rw [if_neg hW]
      have hx1 : (1 : ℚ) ≤ qmul (qdiv p 100) (input.length : ℚ) := by
        rw [qmul_eq, qdiv_eq]
        have hn2q : (2 : ℚ) ≤ (input.length : ℚ) := by exact_mod_cast hn2
        have : (50 : ℚ) / 100 * 2 ≤ p / 100 * (input.length : ℚ) := by
          apply mul_le_mul
          · linarith
          · exact hn2q
          · norm_num
          · positivity
        linarith
      have hx : 1 < qmul (qdiv p 100) (input.length : ℚ) := by
        rcases lt_or_eq_of_le hx1 with h | h
        · exact h
        · exfalso
          apply hW
          rw [← h]
          norm_num [truncQ]
      rw [if_pos hx]
      exact ⟨_, rfl⟩

theorem Percentile_nonneg {input : List ℚ} {p a : ℚ} (hnn : ∀ x ∈ input, 0 ≤ x)
    (ha : Stats.Percentile input p = some a) : 0 ≤ a := by
  have hcnn : ∀ x ∈ List.insertionSort (fun a b : ℚ => a ≤ b) input, 0 ≤ x := by
    intro x hx
    exact hnn x ((List.mem_insertionSort _).mp hx)
  simp only [Stats.Percentile] at ha
  by_cases h0 : input.length = 0
  · rw [if_pos h0] at ha
    exact absurd ha (by simp)
  rw [if_neg h0] at ha
  by_cases h1 : input.length = 1
  · rw [if_pos h1] at ha
    obtain rfl := Option.some.inj ha
    match input, h0 with
    | x :: xs, _ => exact hnn x (List.mem_cons_self _ _)
  rw [if_neg h1] at ha
  by_cases hg : p ≤ 0 ∨ 100 < p
  · rw [if_pos hg] at ha
    exact absurd ha (by simp)
  rw [if_neg hg] at ha
  by_cases hW : qmul (qdiv p 100)
      ((List.insertionSort (fun a b : ℚ => a ≤ b) input).length : ℚ)
      = ((truncQ (qmul (qdiv p 100)
          ((List.insertionSort (fun a b : ℚ => a ≤ b) input).length : ℚ)) : Int) : ℚ)
  · rw [if_pos hW] at ha
    obtain rfl := Option.some.inj ha
    exact getD_nonneg hcnn _
  rw [if_neg hW] at ha
  by_cases hF : 1 < qmul (qdiv p 100)
      ((List.insertionSort (fun a b : ℚ => a ≤ b) input).length : ℚ)
  · rw [if_pos hF] at ha
    obtain rfl := Option.some.inj ha
    rw [qdiv_eq, qadd_eq]
    have h1 := getD_nonneg hcnn ((truncQ (qmul (qdiv p 100)
      ((List.insertionSort (fun a b : ℚ => a ≤ b) input).length : ℚ))).toNat - 1)
    have h2 := getD_nonneg hcnn ((truncQ (qmul (qdiv p 100)
      ((List.insertionSort (fun a b : ℚ => a ≤ b) input).length : ℚ))).toNat)
    linarith
  · rw [if_neg hF] at ha
    exact absurd ha (by simp)

/-- Index facts for the whole-index branch of `stats.Percentile`. -/
theorem whole_idx_facts {x : ℚ} {n : Nat} (hx0 : 0 < x) (hxn : x ≤ (n : ℚ))
    (hW : x = ((truncQ x : Int) : ℚ)) : 1 ≤ truncQ x ∧ truncQ x ≤ (n : Int) := by
  constructor
  · have h : (0 : ℚ) < ((truncQ x : Int) : ℚ) := hW ▸ hx0
    have h0 : 0 < truncQ x := by exact_mod_cast h
    omega
  · have h : ((truncQ x : Int) : ℚ) ≤ ((n : Int) : ℚ) := by
      rw [← hW]
      exact_mod_cast hxn
    exact_mod_cast h

/-- Index facts for the fractional-index branch of `stats.Percentile`. -/
theorem frac_idx_facts {x : ℚ} {n : Nat} (hx1 : 1 < x) (hxn : x ≤ (n : ℚ))
    (hW : x ≠ ((truncQ x : Int) : ℚ)) :
    truncQ x = ⌊x⌋ ∧ 1 ≤ ⌊x⌋ ∧ ⌊x⌋ ≤ (n : Int) - 1 ∧ ((⌊x⌋ : Int) : ℚ) < x := by
  have hx0 : (0 : ℚ) ≤ x := by linarith
  have ht : truncQ x = ⌊x⌋ := truncQ_eq_floor hx0
  have h1 : 1 ≤ ⌊x⌋ := Int.le_floor.mpr (by exact_mod_cast le_of_lt hx1)
  have hlt : ((⌊x⌋ : Int) : ℚ) < x := by
    rcases lt_or_eq_of_le (Int.floor_le x) with h | h
    · exact h
    · exact absurd (by rw [ht]; exact h.symm) hW
  have hn : ⌊x⌋ ≤ (n : Int) - 1 := by
    have hq : ((⌊x⌋ : Int) : ℚ) < ((n : Int) : ℚ) := by
      calc ((⌊x⌋ : Int) : ℚ) < x := hlt
        _ ≤ (n : ℚ) := hxn
        _ = ((n : Int) : ℚ) := by push_cast; ring
    have : ⌊x⌋ < (n : Int) := by exact_mod_cast hq
    omega
  exact ⟨ht, h1, hn, hlt⟩

/-- Monotonicity of `stats.Percentile` in the percent argument: whenever
two percents both produce a value on the same input, the values are
ordered like the percents. -/
theorem Percentile_mono {input : List ℚ} {p q a b : ℚ} (hpq : p ≤ q)
    (ha : Stats.Percentile input p = some a)
    (hb : Stats.Percentile input q = some b) : a ≤ b := by
  simp only [Stats.Percentile] at ha hb
  by_cases h0 : input.length = 0
  · rw [if_pos h0] at ha
    exact absurd ha (by simp)
  rw [if_neg h0] at ha hb
  by_cases h1 : input.length = 1
  · rw [if_pos h1] at ha hb
    obtain rfl := Option.some.inj ha
    obtain rfl := Option.some.inj hb
    exact le_refl _
  rw [if_neg h1] at ha hb
  by_cases hgp : p ≤ 0 ∨ 100 < p
  · rw [if_pos hgp] at ha
    exact absurd ha (by simp)
  rw [if_neg hgp] at ha
  by_cases hgq : q ≤ 0 ∨ 100 < q
  · rw [if_pos hgq] at hb
    exact absurd hb (by simp)
  rw [if_neg hgq] at hb
  push_neg at hgp hgq
  obtain ⟨hp0, hp100⟩ := hgp
  obtain ⟨hq0, hq100⟩ := hgq
  have hn2 : 2 ≤ input.length := by omega
  set c := List.insertionSort (fun a b : ℚ => a ≤ b) input with hc
  have hcl : c.length = input.length := List.length_insertionSort _ _
  rw [hcl] at ha hb
  have hsort : List.Sorted (fun a b : ℚ => a ≤ b) c := by
    rw [hc]
    exact List.sorted_insertionSort _ input
  set n := input.length with hn
  set xp := qmul (qdiv p 100) (n : ℚ) with hxp
  set xq := qmul (qdiv q 100) (n : ℚ) with hxq
  have hnq : (0 : ℚ) < (n : ℚ) := by
    have : (2 : ℚ) ≤ (n : ℚ) := by exact_mod_cast hn2
    linarith
  have hxp_eq : xp = p / 100 * (n : ℚ) := by rw [hxp, qmul_eq, qdiv_eq]
  have hxq_eq : xq = q / 100 * (n : ℚ) := by rw [hxq, qmul_eq, qdiv_eq]
  have hxp0 : 0 < xp := by
    rw [hxp_eq]
    positivity
  have hxq0 : 0 < xq := by
    rw [hxq_eq]
    positivity
  have hxpn : xp ≤ (n : ℚ) := by
    rw [hxp_eq]
    calc p / 100 * (n : ℚ) ≤ 1 * (n : ℚ) := by
          apply mul_le_mul_of_nonneg_right _ (le_of_lt hnq)
          rw [div_le_one (by norm_num : (0 : ℚ) < 100)]
          exact hp100
      _ = (n : ℚ) := one_mul _
  have hxqn : xq ≤ (n : ℚ) := by
    rw [hxq_eq]
    calc q / 100 * (n : ℚ) ≤ 1 * (n : ℚ) := by
          apply mul_le_mul_of_nonneg_right _ (le_of_lt hnq)
          rw [div_le_one (by norm_num : (0 : ℚ) < 100)]
          exact hq100
      _ = (n : ℚ) := one_mul _
  have hxpq : xp ≤ xq := by
    rw [hxp_eq, hxq_eq]
    apply mul_le_mul_of_nonneg_right _ (le_of_lt hnq)
    exact (div_le_div_iff_of_pos_right (by norm_num : (0 : ℚ) < 100)).mpr hpq
  by_cases hWp : xp = ((truncQ xp : Int) : ℚ)
  · rw [if_pos hWp] at ha
    obtain rfl := Option.some.inj ha
    obtain ⟨hp1, hpn'⟩ := whole_idx_facts hxp0 hxpn hWp
    by_cases hWq : xq = ((truncQ xq : Int) : ℚ)
    · rw [if_pos hWq] at hb
      obtain rfl := Option.some.inj hb
      obtain ⟨hq1, hqn'⟩ := whole_idx_facts hxq0 hxqn hWq
      have hIpq : truncQ xp ≤ truncQ xq := by
        have h : ((truncQ xp : Int) : ℚ) ≤ ((truncQ xq : Int) : ℚ) := by
          rw [← hWp, ← hWq]
          exact hxpq
        exact_mod_cast h
      exact sorted_getD_mono hsort (by omega) (by rw [hcl]; omega)
    · rw [if_neg hWq] at hb
      by_cases h1q : 1 < xq
      · rw [if_pos h1q] at hb
        obtain rfl := Option.some.inj hb
        obtain ⟨htq, hq1, hqn', hqlt⟩ := frac_idx_facts h1q hxqn hWq
        have hIpFq : truncQ xp ≤ ⌊xq⌋ := by
          apply Int.le_floor.mpr
          rw [← hWp]
          exact hxpq
        have h1 : c.getD ((truncQ xp).toNat - 1) 0 ≤ c.getD ((truncQ xq).toNat - 1) 0 :=
          sorted_getD_mono hsort (by omega) (by rw [hcl]; omega)
        have h2 : c.getD ((truncQ xq).toNat - 1) 0 ≤ c.getD ((truncQ xq).toNat) 0 :=
          sorted_getD_mono hsort (by omega) (by rw [hcl]; omega)
        simp only [qdiv_eq, qadd_eq]
        linarith
      · rw [if_neg h1q] at hb
        exact absurd hb (by simp)
  · rw [if_neg hWp] at ha
    by_cases h1p : 1 < xp
    · rw [if_pos h1p] at ha
      obtain rfl := Option.some.inj ha
      obtain ⟨htp, hp1, hpn', hplt⟩ := frac_idx_facts h1p hxpn hWp
      by_cases hWq : xq = ((truncQ xq : Int) : ℚ)
      · rw [if_pos hWq] at hb
        obtain rfl := Option.some.inj hb
        obtain ⟨hq1, hqn'⟩ := whole_idx_facts hxq0 hxqn hWq
        have hFpIq : ⌊xp⌋ < truncQ xq := by
          have h : ((⌊xp⌋ : Int) : ℚ) < ((truncQ xq : Int) : ℚ) := by
            rw [← hWq]
            linarith
          exact_mod_cast h
        have h1 : c.getD ((truncQ xp).toNat - 1) 0 ≤ c.getD ((truncQ xp).toNat) 0 :=
          sorted_getD_mono hsort (by omega) (by rw [hcl]; omega)
        have h2 : c.getD ((truncQ xp).toNat) 0 ≤ c.getD ((truncQ xq).toNat - 1) 0 :=
          sorted_getD_mono hsort (by omega) (by rw [hcl]; omega)
        simp only [qdiv_eq, qadd_eq]
        linarith
      · rw [if_neg hWq] at hb
        by_cases h1q : 1 < xq
        · rw [if_pos h1q] at hb
          obtain rfl := Option.some.inj hb
          obtain ⟨htq, hq1, hqn', hqlt⟩ := frac_idx_facts h1q hxqn hWq
          have hFF : ⌊xp⌋ ≤ ⌊xq⌋ := Int.floor_le_floor hxpq
          have h1 : c.getD ((truncQ xp).toNat - 1) 0 ≤ c.getD ((truncQ xq).toNat - 1) 0 :=
            sorted_getD_mono hsort (by omega) (by rw [hcl]; omega)
          have h2 : c.getD ((truncQ xp).toNat) 0 ≤ c.getD ((truncQ xq).toNat) 0 :=
            sorted_getD_mono hsort (by omega) (by rw [hcl]; omega)
          simp only [qdiv_eq, qadd_eq]
          linarith
        · rw [if_neg h1q] at hb
          exact absurd hb (by simp)
    · rw [if_neg h1p] at ha
      exact absurd ha (by simp)

/-- Monotonicity of the whole-millisecond percentile durations computed by
the engine. -/
theorem percentileDur_mono (lats : List ℚ) (hne : lats ≠ []) (hnn : ∀ x ∈ lats, 0 ≤ x)
    {p q : ℚ} (hp : 50 ≤ p) (hq : q ≤ 100) (hpq : p ≤ q) :
    percentileDur lats p ≤ percentileDur lats q := by
  obtain ⟨a, ha⟩ := Percentile_isSome hne hp (le_trans hpq hq)
  obtain ⟨b, hb⟩ := Percentile_isSome hne (le_trans hp hpq) hq
  rw [percentileDur, percentileDur, ha, hb]
  simp only [Option.getD_some]
  have hab := Percentile_mono hpq ha hb
  have ha0 := Percentile_nonneg hnn ha
  exact mul_le_mul_of_nonneg_right (truncQ_mono_nonneg ha0 hab) (by norm_num)

/-! ## Claim C8 -/

/-- C8 (confirmed). Whenever any latency samples exist, the percentile
latencies of the windowed metrics are monotone:
`P50 ≤ P90 ≤ P95 ≤ P99`, already after conversion of each value to a
whole-millisecond duration. -/
theorem C8_percentiles_monotone (entries : List LogEntry) (window : Int)
    (h : (entries.filter latencyEligible).map latencySample ≠ []) :
    (Engine.computeWindowedMetrics entries window).p50Latency
        ≤ (Engine.computeWindowedMetrics entries window).p90Latency
      ∧ (Engine.computeWindowedMetrics entries window).p90Latency
        ≤ (Engine.computeWindowedMetrics entries window).p95Latency
      ∧ (Engine.computeWindowedMetrics entries window).p95Latency
        ≤ (Engine.computeWindowedMetrics entries window).p99Latency := by
  have hne : ¬ entries.length = 0 := by
    intro h0
    apply h
    rw [List.length_eq_zero.mp h0]
    rfl
  have hnn : ∀ x ∈ (entries.filter latencyEligible).map latencySample, 0 ≤ x := by
    intro x hx
    obtain ⟨e, he, rfl⟩ := List.mem_map.mp hx
    have hel : latencyEligible e = true := (List.mem_filter.mp he).2
    have hlat : 0 < e.latency := by
      simp only [latencyEligible, Bool.and_eq_true, decide_eq_true_eq] at hel
      exact hel.2
    have hms : 0 ≤ durMilliseconds e.latency := Int.tdiv_nonneg (le_of_lt hlat) (by norm_num)
    simp only [latencySample]
    exact_mod_cast hms
  have hlen : decide (0 < ((entries.filter latencyEligible).map latencySample).length) = true :=
    decide_eq_true (List.length_pos.mpr h)
  simp only [Engine.computeWindowedMetrics, if_neg hne, hlen, if_true]
  exact ⟨percentileDur_mono _ h hnn (by norm_num) (by norm_num) (by norm_num),
    percentileDur_mono _ h hnn (by norm_num) (by norm_num) (by norm_num),
    percentileDur_mono _ h hnn (by norm_num) (by norm_num) (by norm_num)⟩

/-- Closed witness for `C8_percentiles_monotone`: one status-200 record
with a 5 ms latency. -/
theorem C8_witness :
    ([c8entry].filter latencyEligible).map latencySample ≠ []
      ∧ ((Engine.computeWindowedMetrics [c8entry] 0).p50Latency
            ≤ (Engine.computeWindowedMetrics [c8entry] 0).p90Latency
          ∧ (Engine.computeWindowedMetrics [c8entry] 0).p90Latency
            ≤ (Engine.computeWindowedMetrics [c8entry] 0).p95Latency
          ∧ (Engine.computeWindowedMetrics [c8entry] 0).p95Latency
            ≤ (Engine.computeWindowedMetrics [c8entry] 0).p99Latency) :=
  ⟨by decide, C8_percentiles_monotone [c8entry] 0 (by decide)⟩

/-! ## Claim C4 -/

/-- C4 (corrected). The parser chain is a deterministic function of the
line and the current wall-clock instant: two parses of the same line
always agree on message, level, status code, latency, endpoint and
fields, and agree on the timestamp as well whenever both parses observe
the same current time. (The original claim — equality in all fields
including the timestamp — fails for lines whose timestamp falls back to
`time.Now()`, see `C4_counterexample`.) -/
theorem C4_deterministic_modulo_now (line : String) (n₁ n₂ : Int) :
    ∃ e₁ e₂, MultiParser.Parse n₁ line = some e₁ ∧ MultiParser.Parse n₂ line = some e₂
      ∧ e₁.message = e₂.message ∧ e₁.level = e₂.level ∧ e₁.statusCode = e₂.statusCode
      ∧ e₁.latency = e₂.latency ∧ e₁.endpoint = e₂.endpoint ∧ e₁.fields = e₂.fields
      ∧ (n₁ = n₂ → e₁ = e₂) := by
  cases h : jsonUnmarshalMap line with
  | some raw =>
    refine ⟨JSONParser.entryOf n₁ raw, JSONParser.entryOf n₂ raw, ?_, ?_,
      rfl, rfl, rfl, rfl, rfl, rfl, ?_⟩
    · simp only [MultiParser.Parse, JSONParser.Parse, h]
    · simp only [MultiParser.Parse, JSONParser.Parse, h]
    · rintro rfl
      rfl
  | none =>
    refine ⟨{ timestamp := n₁, message := line, level := lineLevel line },
      { timestamp := n₂, message := line, level := lineLevel line },
      ?_, ?_, rfl, rfl, rfl, rfl, rfl, rfl, ?_⟩
    · simp only [MultiParser.Parse, JSONParser.Parse, NginxParser.Parse, LineParser.Parse, h]
    · simp only [MultiParser.Parse, JSONParser.Parse, NginxParser.Parse, LineParser.Parse, h]
    · rintro rfl
      rfl

/-- Closed witness for `C4_deterministic_modulo_now` at the line
`hello` and the instants 0 and 1. -/
theorem C4_witness :
    ∃ e₁ e₂, MultiParser.Parse 0 "hello" = some e₁ ∧ MultiParser.Parse 1 "hello" = some e₂
      ∧ e₁.message = e₂.message ∧ e₁.level = e₂.level ∧ e₁.statusCode = e₂.statusCode
      ∧ e₁.latency = e₂.latency ∧ e₁.endpoint = e₂.endpoint ∧ e₁.fields = e₂.fields
      ∧ ((0 : Int) = 1 → e₁ = e₂) :=
  C4_deterministic_modulo_now "hello" 0 1

/-- C4 counterexample: the line `hello` is handled by the fallback line
parser, whose timestamp is `time.Now()`; parsing it at instant 0 and at
instant 1 produces records that differ (in the timestamp field), so the
chain is not idempotent in all fields including the timestamp. -/
theorem C4_counterexample : MultiParser.Parse 0 "hello" ≠ MultiParser.Parse 1 "hello" := by
  intro h
  have h2 := congrArg (Option.map LogEntry.timestamp) h
  exact absurd h2 (by decide)

/-! ## Claim C9 -/

/-- C9 (confirmed). When a line unmarshals to an object with no `level`
key, the JSON parser sets the record's level to INFO (not UNKNOWN); when
a `level` key is present with a non-string value, the failed type
assertion leaves the level as the empty string, which is neither INFO nor
UNKNOWN. -/
theorem C9_level_defaults (now : Int) (line : String) (raw : List (String × Jval))
    (h : jsonUnmarshalMap line = some raw) :
    JSONParser.Parse now line = some (JSONParser.entryOf now raw)
      ∧ (lookupJ raw "level" = none →
          (JSONParser.entryOf now raw).level = InfoLevel ∧ InfoLevel ≠ UnknownLevel)
      ∧ (∀ v, lookupJ raw "level" = some v → (∀ s, v ≠ Jval.str s) →
          (JSONParser.entryOf now raw).level = ""
            ∧ ("" : String) ≠ InfoLevel ∧ ("" : String) ≠ UnknownLevel) := by
  refine ⟨by simp only [JSONParser.Parse, h], ?_, ?_⟩
  · intro hnone
    refine ⟨?_, by decide⟩
    simp only [JSONParser.entryOf, hnone]
  · intro v hv hnotstr
    refine ⟨?_, by decide, by decide⟩
    cases v with
    | str s => exact absurd rfl (hnotstr s)
    | null => simp only [JSONParser.entryOf, hv]
    | jbool b => simp only [JSONParser.entryOf, hv]
    | num q => simp only [JSONParser.entryOf, hv]
    | arr xs => simp only [JSONParser.entryOf, hv]
    | obj kvs => simp only [JSONParser.entryOf, hv]

/-- Closed witness for `C9_level_defaults` at both kinds of input: an
object with no `level` key and an object whose `level` is the number 5. -/
theorem C9_witness :
    ((JSONParser.entryOf 0 c9rawNoLevel).level = InfoLevel ∧ InfoLevel ≠ UnknownLevel)
      ∧ ((JSONParser.entryOf 0 c9rawNumLevel).level = ""
          ∧ ("" : String) ≠ InfoLevel ∧ ("" : String) ≠ UnknownLevel) :=
  ⟨(C9_level_defaults 0 c9lineNoLevel c9rawNoLevel rfl).2.1 rfl,
    (C9_level_defaults 0 c9lineNumLevel c9rawNumLevel rfl).2.2 (Jval.num 5) rfl
      (fun _ h => Jval.noConfusion h)⟩

/-! ## Claim C5 -/

/-- Folding `InsertLogEntry` over a batch of records appends their rows in
order. -/
theorem foldl_InsertLogEntry (es : List LogEntry) :
    ∀ s : Storage, es.foldl Storage.InsertLogEntry s = s ++ es.map entryToRow := by
  induction es with
  | nil => intro s; simp
  | cons e t ih =>
    intro s
    rw [List.foldl_cons, ih, List.map_cons]
    simp [Storage.InsertLogEntry]

/-- C5 (corrected). After N inserts, `GetLogEntriesSince` with the zero
time returns exactly those N records with every field equal except the
latency, which is truncated to whole milliseconds — but sorted by timestamp
(stably, so records with equal timestamps keep insertion order), which is
the insertion order only when the inserted timestamps are non-decreasing.
The original claim of unconditional insertion order fails, see
`C5_counterexample`. -/
theorem C5_store_roundtrip_sorted (es : List LogEntry) (h : ∀ e ∈ es, 0 ≤ e.timestamp) :
    Storage.GetLogEntriesSince (es.foldl Storage.InsertLogEntry []) 0
      = List.insertionSort (fun a b : LogEntry => a.timestamp ≤ b.timestamp)
          (es.map normalizeEntry) := by
  rw [foldl_InsertLogEntry es []]
  simp only [List.nil_append, Storage.GetLogEntriesSince]
  have hfil : List.filter (fun r => decide ((0 : Int) ≤ r.timestamp)) (es.map entryToRow)
      = es.map entryToRow := by
    rw [List.filter_eq_self]
    intro r hr
    obtain ⟨e, he, rfl⟩ := List.mem_map.mp hr
    exact decide_eq_true (h e he)
  rw [hfil]
  rw [List.map_insertionSort (fun a b : LogRow => a.timestamp ≤ b.timestamp)
    (fun a b : LogEntry => a.timestamp ≤ b.timestamp) rowToEntry (es.map entryToRow)
    (fun a _ b _ => Iff.rfl)]
  rw [List.map_map]
  have hcomp : List.map (rowToEntry ∘ entryToRow) es = List.map normalizeEntry es :=
    List.map_congr_left (fun e _ => rfl)
  rw [hcomp]

/-- Closed witness for `C5_store_roundtrip_sorted` on two concrete
records. -/
theorem C5_witness :
    (∀ e ∈ [c5r1, c5r2], 0 ≤ e.timestamp)
      ∧ Storage.GetLogEntriesSince ([c5r1, c5r2].foldl Storage.InsertLogEntry []) 0
        = List.insertionSort (fun a b : LogEntry => a.timestamp ≤ b.timestamp)
            ([c5r1, c5r2].map normalizeEntry) :=
  ⟨by decide, C5_store_roundtrip_sorted [c5r1, c5r2] (by decide)⟩

/-- C5 counterexample: insert a record with timestamp 10 s and then one
with timestamp 5 s. `GetLogEntriesSince(0)` orders by timestamp, so the
result is not the inserted records in insertion order (latencies
normalized): the timestamps come back as [5 s, 10 s]. -/
theorem C5_counterexample :
    Storage.GetLogEntriesSince ([c5r1, c5r2].foldl Storage.InsertLogEntry []) 0
      ≠ [normalizeEntry c5r1, normalizeEntry c5r2] := by
  intro h
  have h2 := congrArg (List.map LogEntry.timestamp) h
  exact absurd h2 (by decide)
